import Mathlib

/-!
Shallow embedding of the userspace flow-collection engine in
`XDP/xdp_collect.py` (eBPF-Flow-Collector), together with proofs of the
specification claims about it.

Modelling conventions:
* Kernel BPF hash tables (`flows`, `cache`) are association lists
  `List (FlowKey × List Accum)` with Python-dict semantics for
  `__setitem__` / `__delitem__` / `__getitem__` / `items()`.
* The per-CPU accumulator array for a flow is a `List Accum` whose length
  is the logical CPU count; the Python loops `for j in range(0, CPU_COUNT)`
  traverse exactly that array, so they become folds over the list.
* Wall-clock quantities (`time.time()`, the boot offset, idle times) are
  exact rationals `ℚ`; monotonic nanosecond stamps are `Nat`.
* Python exceptions (`KeyError` from `__getitem__`, the `AttributeError`
  raised by the nonexistent `ipaddress.ipv6_address`) are `Except String`.
-/

namespace XdpCollect

/-- One per-CPU accumulator shard: fields of `struct flow_accums` as read
through ctypes (`packets`, `bytes`, `start`, `end` in monotonic ns). -/
structure Accum where
  packets : Nat
  bytes : Nat
  start : Nat
  endNs : Nat
  deriving DecidableEq, Repr

/-- Flow identity: fields of `struct flow_attrs` as read through ctypes.
Addresses and ports are in network byte order, as stored by the kernel. -/
structure FlowKey where
  l2_proto : Nat
  l4_proto : Nat
  src_ip : Nat
  dst_ip : Nat
  src_port : Nat
  dst_port : Nat
  deriving DecidableEq, Repr

/-- A BPF hash table as seen from userspace: keyed rows, one per FlowKey. -/
abbrev Table := List (FlowKey × List Accum)

/-- `table[k]`, i.e. `__getitem__` without the KeyError (that is added at
use sites via `Except`). -/
def lookupKey (k : FlowKey) : Table → Option (List Accum)
  | [] => none
  | kv :: rest => if kv.1 = k then some kv.2 else lookupKey k rest

/-- `table[k] = v` (`__setitem__`): replace the binding if the key is
present, otherwise append a new one. -/
def setItem : Table → FlowKey → List Accum → Table
  | [], k, v => [(k, v)]
  | kv :: rest, k, v => if kv.1 = k then (k, v) :: rest else kv :: setItem rest k v

/-- `del table[k]` (`__delitem__`): drop the (first) binding of `k`. -/
def delItem : Table → FlowKey → Table
  | [], _ => []
  | kv :: rest, k => if kv.1 = k then rest else kv :: delItem rest k

/-- The key column of a table. -/
def keysOf (t : Table) : List FlowKey := t.map Prod.fst

/-- Well-formedness of a hash table: one binding per key. -/
def NodupKeys (t : Table) : Prop := (keysOf t).Nodup

instance instNodupKeysDecidable (t : Table) : Decidable (NodupKeys t) :=
  inferInstanceAs (Decidable (keysOf t).Nodup)

/-- The two tables the engine mutates. -/
structure EngineState where
  flows : Table
  cache : Table
  deriving DecidableEq, Repr

/-! ### `_sweep_flows`, first pass -/

/-- The inner CPU loop of `_sweep_flows`: `recent_stamp` starts at `0` and
is bumped to `accms[j].end` whenever that is larger. -/
def recentStamp (accms : List Accum) : Nat :=
  accms.foldl (fun acc a => if a.endNs > acc then a.endNs else acc) 0

/-- `idle_time = now - (recent_stamp/1e9 + offset)`. -/
def idleTime (now offset : ℚ) (accms : List Accum) : ℚ :=
  now - ((recentStamp accms : ℚ) / 1e9 + offset)

/-- The `old_flows` list built by the first pass of `_sweep_flows`: the keys
whose idle time strictly exceeds `agg_time`, in table order. -/
def oldFlows (now offset aggTime : ℚ) (flows : Table) : List FlowKey :=
  (flows.filter (fun kv => decide (idleTime now offset kv.2 > aggTime))).map Prod.fst

/-! ### `_sweep_flows`, second pass

The cleanup loop performs, for each candidate `flow`, the two primitive
mutations `cache.__setitem__(flow, flows.__getitem__(flow))` then
`flows.__delitem__(flow)`.  We reify that pass as a script of primitive
operations so that intermediate states (between the two mutations of one
candidate) are first-class. -/

/-- One primitive table mutation of the cleanup loop. -/
inductive Op where
  | cacheSet (k : FlowKey) (v : List Accum)
  | flowsDel (k : FlowKey)
  deriving DecidableEq, Repr

/-- Apply one primitive mutation to the engine state. -/
def execOp (st : EngineState) : Op → EngineState
  | .cacheSet k v => { st with cache := setItem st.cache k v }
  | .flowsDel k => { st with flows := delItem st.flows k }

/-- Run a list of primitive mutations in order. -/
def execOps (st : EngineState) (ops : List Op) : EngineState :=
  ops.foldl execOp st

/-- The script of primitive mutations the cleanup loop performs on the
given candidate list, reading each candidate's value from the `flows`
table as it stands when that candidate is processed (`__getitem__` on an
absent key is a `KeyError`). -/
def transferOps (flows : Table) : List FlowKey → Except String (List Op)
  | [] => .ok []
  | k :: rest =>
    match lookupKey k flows with
    | some v =>
      (transferOps (delItem flows k) rest).map
        (fun ops => Op.cacheSet k v :: Op.flowsDel k :: ops)
    | none => .error "KeyError"

/-- `_sweep_flows(flows, cache, offset, agg_time)`: identify the idle
candidates from the current table, then run the cleanup script. -/
def sweepFlows (now offset aggTime : ℚ) (st : EngineState) : Except String EngineState :=
  (transferOps st.flows (oldFlows now offset aggTime st.flows)).map (execOps st)

/-! ### Final drain (`main`, after the collection loop) -/

/-- The "Transfer remaining flows to cache" loop of `main`: every pair
still in `flows` is copied into `cache` via `__setitem__`; nothing is
deleted from `flows`. -/
def transferRemaining (st : EngineState) : EngineState :=
  { st with cache := st.flows.foldl (fun c kv => setItem c kv.1 kv.2) st.cache }

/-- The shutdown drain: `_sweep_flows(flows, cache, offset, 0)` followed by
the copy-everything loop. -/
def drain (now offset : ℚ) (st : EngineState) : Except String EngineState :=
  (sweepFlows now offset 0 st).map transferRemaining

/-! ### A collection run

During the collection window the kernel classifier inserts/updates rows of
`flows`, and the engine periodically sweeps.  A run is a sequence of these
two events, after which `main` drains. -/

/-- One event of the collection window. -/
inductive Event where
  | classify (k : FlowKey) (v : List Accum)
  | sweep (now aggTime : ℚ)

/-- Effect of one event on the engine state. -/
def stepEvent (offset : ℚ) (st : EngineState) : Event → Except String EngineState
  | .classify k v => .ok { st with flows := setItem st.flows k v }
  | .sweep now aggTime => sweepFlows now offset aggTime st

/-- Run the collection window. -/
def runEvents (offset : ℚ) : List Event → EngineState → Except String EngineState
  | [], st => .ok st
  | e :: es, st => (stepEvent offset st e).bind (runEvents offset es)

/-- A full run: collection window, then the shutdown drain. -/
def runThenDrain (offset : ℚ) (events : List Event) (now : ℚ)
    (st : EngineState) : Except String EngineState :=
  (runEvents offset events st).bind (drain now offset)

/-- The keys the classifier inserts during the window. -/
def classifiedKeys (events : List Event) : List FlowKey :=
  events.filterMap (fun e =>
    match e with
    | .classify k _ => some k
    | .sweep _ _ => none)

/-- Every FlowKey that is ever present in the live table during the run:
the initial keys plus every key the classifier inserts. -/
def observedKeys (st : EngineState) (events : List Event) : List FlowKey :=
  keysOf st.flows ++ classifiedKeys events

/-- Number of bindings of `k` in a table (for "appears exactly once"). -/
def keyCount (t : Table) (k : FlowKey) : Nat :=
  (keysOf t).count k

/-! ### Report compiler (`main`, lines 140-210)

The per-flow CPU loop of the report phase keeps `start`/`end` in Python
ints seeded with the sentinel `-1`, so the merged view lives in `Int`. -/

/-- The running accumulation state of the report loop for one flow. -/
structure Merged where
  packets : Nat
  bytes : Nat
  start : Int
  endNs : Int
  deriving DecidableEq, Repr

/-- One iteration of `for j in range(0, CPU_COUNT)` in the report loop:
add the shard's counters and fold its stamps through the `-1` sentinel. -/
def mergeStep (m : Merged) (a : Accum) : Merged where
  packets := m.packets + a.packets
  bytes := m.bytes + a.bytes
  start := if m.start = -1 then (a.start : Int) else min m.start (a.start : Int)
  endNs := if m.start = -1 then (a.endNs : Int) else max m.endNs (a.endNs : Int)

/-- The whole CPU loop: fold all shards from
`n_packets = 0, n_bytes = 0, start = -1, end = -1`. -/
def mergeAccums (accms : List Accum) : Merged :=
  accms.foldl mergeStep ⟨0, 0, -1, -1⟩

/-- Modelled from the spec (§4.2 Accumulator Merger), for comparison with
the code's `mergeAccums`: "earliest_start_ns is the minimum start_ns among
shards that have recorded at least one packet (a shard with zero packets
must not contribute a spurious zero timestamp)". -/
def specEarliestStartNs (accms : List Accum) : Option Nat :=
  ((accms.filter (fun a => decide (0 < a.packets))).map Accum.start).min?

/-- Modelled from the spec (§4.2 Accumulator Merger): "latest_end_ns is
the maximum end_ns among the same set" (shards with at least one packet). -/
def specLatestEndNs (accms : List Accum) : Option Nat :=
  ((accms.filter (fun a => decide (0 < a.packets))).map Accum.endNs).max?

/-- `socket.ntohs`: byte-swap of a 16-bit quantity. -/
def ntohs (n : Nat) : Nat :=
  let m := n % 65536
  (m % 256) * 256 + m / 256

/-- `socket.ntohl`: byte-swap of a 32-bit quantity. -/
def ntohl (n : Nat) : Nat :=
  let m := n % 4294967296
  (m % 256) * 16777216 + (m / 256 % 256) * 65536 + (m / 65536 % 256) * 256
    + m / 16777216

/-- `"{}".format(ipaddress.ip_address(n))` for `n < 2^32`: dotted quad. -/
def ipv4Str (n : Nat) : String :=
  toString (n / 16777216 % 256) ++ "." ++ toString (n / 65536 % 256) ++ "."
    ++ toString (n / 256 % 256) ++ "." ++ toString (n % 256)

/-- Python's `hex(n)` for a nonnegative int: `0x` plus lowercase hex digits. -/
def hexStr (n : Nat) : String :=
  "0x" ++ String.mk (Nat.toDigits 16 n)

/-- Rendering of an exact rational time into the row text (stands in for
Python's float formatting; integral values print with no denominator). -/
def ratStr (q : ℚ) : String :=
  if q.den = 1 then toString q.num else toString q.num ++ "/" ++ toString q.den

/-- Parse the textual number format produced by `ratStr` back into `ℚ`
(stands in for Python's `float(...)` on a rendered field). -/
def parseRatAux (s : String) : ℚ :=
  match s.splitOn "/" with
  | [a] => ((a.toNat?.getD 0 : Nat) : ℚ)
  | [a, b] => ((a.toNat?.getD 0 : Nat) : ℚ) / ((b.toNat?.getD 1 : Nat) : ℚ)
  | _ => 0

/-- `float(...)` on a rendered field, signs included. -/
def parseRat (s : String) : ℚ :=
  if s.startsWith "-" then -(parseRatAux (s.drop 1)) else parseRatAux s

/-- `x[:x.find(',')]`: the leading comma-separated field of a row (every
rendered row contains a comma). -/
def leadingField (s : String) : String :=
  s.takeWhile (fun c => c ≠ ',')

/-- The address-decoding branch of the report loop.  `0x0800` renders the
addresses as IPv4 dotted quads of the byte-swapped fields; `0x8100` calls
the nonexistent `ipaddress.ipv6_address`, an `AttributeError`; any other
ethertype leaves both strings empty. -/
def decodeAddrs (attrs : FlowKey) : Except String (String × String) :=
  if attrs.l2_proto = 0x0800 then
    .ok (ipv4Str (ntohl attrs.src_ip), ipv4Str (ntohl attrs.dst_ip))
  else if attrs.l2_proto = 0x8100 then
    .error "AttributeError: module ipaddress has no attribute ipv6_address"
  else
    .ok ("", "")

/-- The row format string
`"{},{},{},{},{},{},{},{},{},{}\n".format(start, end, src_ip, dst_ip,
src_p, dst_p, hex(l2_proto), l4_proto, n_packets, n_bytes)`. -/
def renderRow (start endT : ℚ) (srcIp dstIp : String)
    (srcP dstP l2 l4 nPackets nBytes : Nat) : String :=
  ratStr start ++ "," ++ ratStr endT ++ "," ++ srcIp ++ "," ++ dstIp ++ ","
    ++ toString srcP ++ "," ++ toString dstP ++ "," ++ hexStr l2 ++ ","
    ++ toString l4 ++ "," ++ toString nPackets ++ "," ++ toString nBytes ++ "\n"

/-- One iteration of the report loop over `cache.items()`: merge the
shards, convert both stamps to unix time, decode the addresses, render. -/
def compileRow (offset : ℚ) (kv : FlowKey × List Accum) : Except String String :=
  let m := mergeAccums kv.2
  match decodeAddrs kv.1 with
  | .error e => .error e
  | .ok sd =>
    .ok (renderRow ((m.start : ℚ) / 1e9 + offset) ((m.endNs : ℚ) / 1e9 + offset)
      sd.1 sd.2 (ntohs kv.1.src_port) (ntohs kv.1.dst_port)
      kv.1.l2_proto kv.1.l4_proto m.packets m.bytes)

/-- `flow_set.add(row)`: a Python `set` of strings, modelled as a list
without duplicates, in insertion order. -/
def setAdd (s : List String) (x : String) : List String :=
  if x ∈ s then s else s ++ [x]

/-- The whole report loop: build `flow_set` row by row; any exception in
one iteration aborts the phase. -/
def buildFlowSet (offset : ℚ) : Table → List String → Except String (List String)
  | [], acc => .ok acc
  | kv :: rest, acc =>
    match compileRow offset kv with
    | .error e => .error e
    | .ok r => buildFlowSet offset rest (setAdd acc r)

/-- The sort key of `sorted(flow_set, key=lambda x: float(x[:x.find(',')]))`:
the leading comma-separated field, parsed as a number. -/
def rowKey (s : String) : ℚ :=
  parseRat (leadingField s)

/-- `sorted(flow_set, key=...)`: a comparison sort by `rowKey`, modelled
with insertion sort (the claims concern the sortedness of the result, not
the algorithm CPython uses). -/
def sortRows (l : List String) : List String :=
  l.insertionSort (fun a b => rowKey a ≤ rowKey b)

instance rowRelTotal : IsTotal String (fun a b => rowKey a ≤ rowKey b) :=
  ⟨fun _ _ => le_total _ _⟩

instance rowRelTrans : IsTrans String (fun a b => rowKey a ≤ rowKey b) :=
  ⟨fun _ _ _ => le_trans⟩

/-- The fixed header written before the sorted rows. -/
def headerLine : String :=
  "START, END, SRC IP, DST IP, SRC PORT, DST PORT, ETHER TYPE, PROTO, #PACKETS, #BYTES\n"

/-- The lines of the final CSV: header first, then the deduplicated rows
sorted by the parsed leading field. -/
def compileReport (offset : ℚ) (cache : Table) : Except String (List String) :=
  (buildFlowSet offset cache []).map (fun s => headerLine :: sortRows s)

/-! ### Exit-path model of `main` (lines 104-212)

Only the classifier attachment/detachment and the report write matter to
the exit-path claims; the trace records those actions in program order,
parameterised by the observable branch conditions: how many times the
collection loop body ran, whether a `KeyboardInterrupt` ended it, and
whether the report-compilation `try` block raised. -/

/-- The externally visible actions of `main`. -/
inductive MainAction where
  | attachXdp
  | sweepTick
  | removeXdp
  | writeReport
  deriving DecidableEq, Repr

/-- How `main` ends. -/
inductive MainOutcome where
  | finished
  | errored
  deriving DecidableEq, Repr

/-- The action trace of `main`: attach (line 105); the collection loop's
sweeps (line 123); on `KeyboardInterrupt`, `remove_xdp` in the handler
(line 126); the forced zero-threshold sweep (line 129); the report `try`
whose `finally` always runs `remove_xdp` (line 196); and, only when no
exception was raised, the sorted write (lines 205-208). -/
def mainTrace (loopSweeps : Nat) (interrupted reportError : Bool) :
    List MainAction × MainOutcome :=
  let collectLoop := List.replicate loopSweeps MainAction.sweepTick
  let handler := if interrupted then [MainAction.removeXdp] else []
  let drainPhase := [MainAction.sweepTick]
  if reportError then
    ([MainAction.attachXdp] ++ collectLoop ++ handler ++ drainPhase
       ++ [MainAction.removeXdp], MainOutcome.errored)
  else
    ([MainAction.attachXdp] ++ collectLoop ++ handler ++ drainPhase
       ++ [MainAction.removeXdp, MainAction.writeReport], MainOutcome.finished)

end XdpCollect

namespace XdpCollect

/-! ### Association-list lemmas for the two tables -/

theorem lookupKey_isSome_iff {k : FlowKey} {t : Table} :
    (lookupKey k t).isSome ↔ k ∈ keysOf t := by
  induction t with
  | nil => simp [lookupKey, keysOf]
  | cons kv rest ih =>
    by_cases h : kv.1 = k
    · simp [lookupKey, keysOf, h]
    · simp only [lookupKey, keysOf, List.map_cons, List.mem_cons, if_neg h]
      rw [ih]
      constructor
      · exact fun hm => Or.inr hm
      · rintro (hm | hm)
        · exact absurd hm.symm h
        · exact hm

theorem lookupKey_eq_some_of_mem {k : FlowKey} {v : List Accum} {t : Table}
    (hnd : NodupKeys t) (hm : (k, v) ∈ t) : lookupKey k t = some v := by
  induction t with
  | nil => cases hm
  | cons kv rest ih =>
    rcases List.mem_cons.mp hm with h | h
    · subst h; simp [lookupKey]
    · have hk : kv.1 ≠ k := by
        rintro rfl
        have : kv.1 ∈ keysOf rest := List.mem_map.mpr ⟨(kv.1, v), h, rfl⟩
        exact (List.nodup_cons.mp hnd).1 this
      have hnd' : NodupKeys rest := (List.nodup_cons.mp hnd).2
      simp [lookupKey, hk, ih hnd' h]

theorem mem_of_lookupKey_eq_some {k : FlowKey} {v : List Accum} {t : Table}
    (h : lookupKey k t = some v) : (k, v) ∈ t := by
  induction t with
  | nil => simp [lookupKey] at h
  | cons kv rest ih =>
    by_cases hk : kv.1 = k
    · simp only [lookupKey, if_pos hk] at h
      cases h
      subst hk
      exact List.mem_cons_self _ _
    · simp only [lookupKey, if_neg hk] at h
      exact List.mem_cons_of_mem _ (ih h)

theorem value_unique {k : FlowKey} {v v' : List Accum} {t : Table}
    (hnd : NodupKeys t) (h : (k, v) ∈ t) (h' : (k, v') ∈ t) : v = v' := by
  have e1 := lookupKey_eq_some_of_mem hnd h
  have e2 := lookupKey_eq_some_of_mem hnd h'
  rw [e1] at e2
  exact (Option.some.injEq _ _).mp e2

theorem lookupKey_setItem_self {t : Table} {k : FlowKey} {v : List Accum} :
    lookupKey k (setItem t k v) = some v := by
  induction t with
  | nil => simp [setItem, lookupKey]
  | cons kv rest ih =>
    by_cases h : kv.1 = k
    · simp [setItem, h, lookupKey]
    · simp [setItem, h, lookupKey, ih]

theorem lookupKey_setItem_ne {t : Table} {k k' : FlowKey} {v : List Accum}
    (hne : k ≠ k') : lookupKey k (setItem t k' v) = lookupKey k t := by
  induction t with
  | nil => simp [setItem, lookupKey, if_neg (Ne.symm hne)]
  | cons kv rest ih =>
    by_cases h : kv.1 = k'
    · subst h
      simp [setItem, lookupKey, if_neg (Ne.symm hne)]
    · simp [setItem, lookupKey, if_neg h, ih]

theorem lookupKey_delItem_ne {t : Table} {k k' : FlowKey}
    (hne : k ≠ k') : lookupKey k (delItem t k') = lookupKey k t := by
  induction t with
  | nil => simp [delItem, lookupKey]
  | cons kv rest ih =>
    by_cases h : kv.1 = k'
    · subst h
      simp [delItem, lookupKey, if_neg (Ne.symm hne)]
    · simp [delItem, lookupKey, if_neg h, ih]

theorem keysOf_delItem_subset {t : Table} {k k' : FlowKey}
    (h : k ∈ keysOf (delItem t k')) : k ∈ keysOf t := by
  induction t with
  | nil => simp [delItem, keysOf] at h
  | cons kv rest ih =>
    by_cases hk : kv.1 = k'
    · simp only [delItem, if_pos hk] at h
      exact List.mem_cons_of_mem _ h
    · simp only [delItem, if_neg hk, keysOf, List.map_cons, List.mem_cons] at h ⊢
      rcases h with h | h
      · exact Or.inl h
      · exact Or.inr (ih h)

theorem nodupKeys_delItem {t : Table} {k : FlowKey}
    (hnd : NodupKeys t) : NodupKeys (delItem t k) := by
  induction t with
  | nil => exact hnd
  | cons kv rest ih =>
    rcases List.nodup_cons.mp hnd with ⟨hni, hnd'⟩
    unfold NodupKeys keysOf
    by_cases hk : kv.1 = k
    · simp only [delItem, if_pos hk]
      exact hnd'
    · simp only [delItem, if_neg hk, List.map_cons, List.nodup_cons]
      exact ⟨fun hm => hni (keysOf_delItem_subset hm), ih hnd'⟩

theorem lookupKey_delItem_self {t : Table} {k : FlowKey}
    (hnd : NodupKeys t) : lookupKey k (delItem t k) = none := by
  induction t with
  | nil => simp [delItem, lookupKey]
  | cons kv rest ih =>
    rcases List.nodup_cons.mp hnd with ⟨hni, hnd'⟩
    by_cases hk : kv.1 = k
    · subst hk
      simp only [delItem, if_pos rfl]
      cases ho : lookupKey kv.1 rest with
      | none => exact ho
      | some v => exact absurd (List.mem_map.mpr ⟨_, mem_of_lookupKey_eq_some ho, rfl⟩) hni
    · simp [delItem, lookupKey, hk, ih hnd']

theorem keysOf_setItem_subset {t : Table} {k k' : FlowKey} {v : List Accum}
    (h : k ∈ keysOf (setItem t k' v)) : k = k' ∨ k ∈ keysOf t := by
  induction t with
  | nil => simpa [setItem, keysOf] using h
  | cons kv rest ih =>
    by_cases hk : kv.1 = k'
    · simp only [setItem, if_pos hk, keysOf, List.map_cons, List.mem_cons] at h ⊢
      rcases h with h | h
      · exact Or.inl h
      · exact Or.inr (Or.inr h)
    · simp only [setItem, if_neg hk, keysOf, List.map_cons, List.mem_cons] at h ⊢
      rcases h with h | h
      · exact Or.inr (Or.inl h)
      · rcases ih h with h | h
        · exact Or.inl h
        · exact Or.inr (Or.inr h)

theorem nodupKeys_setItem {t : Table} {k : FlowKey} {v : List Accum}
    (hnd : NodupKeys t) : NodupKeys (setItem t k v) := by
  induction t with
  | nil => simp [setItem, NodupKeys, keysOf]
  | cons kv rest ih =>
    rcases List.nodup_cons.mp hnd with ⟨hni, hnd'⟩
    unfold NodupKeys keysOf
    by_cases hk : kv.1 = k
    · simp only [setItem, if_pos hk, List.map_cons, List.nodup_cons]
      subst hk
      exact ⟨hni, hnd'⟩
    · simp only [setItem, if_neg hk, List.map_cons, List.nodup_cons]
      refine ⟨fun hm => ?_, ih hnd'⟩
      rcases keysOf_setItem_subset hm with h | h
      · exact hk h
      · exact hni h

theorem keyCount_eq_one {t : Table} {k : FlowKey}
    (hnd : NodupKeys t) (hm : k ∈ keysOf t) : keyCount t k = 1 :=
  List.count_eq_one_of_mem hnd hm

theorem mem_keysOf_setItem_self {t : Table} {k : FlowKey} {v : List Accum} :
    k ∈ keysOf (setItem t k v) :=
  lookupKey_isSome_iff.mp (by rw [lookupKey_setItem_self]; rfl)

theorem mem_keysOf_setItem_of_mem {t : Table} {k k' : FlowKey} {v : List Accum}
    (h : k ∈ keysOf t) : k ∈ keysOf (setItem t k' v) := by
  by_cases hk : k = k'
  · subst hk; exact mem_keysOf_setItem_self
  · exact lookupKey_isSome_iff.mp (by rw [lookupKey_setItem_ne hk]; exact lookupKey_isSome_iff.mpr h)

/-! ### The second pass of `_sweep_flows` as script execution -/

theorem execOps_nil (st : EngineState) : execOps st [] = st := rfl

theorem execOps_cons (st : EngineState) (a : Op) (l : List Op) :
    execOps st (a :: l) = execOps (execOp st a) l := rfl

theorem execOps_append (st : EngineState) (p s : List Op) :
    execOps st (p ++ s) = execOps (execOps st p) s :=
  List.foldl_append _ _ _ _

/-- Cache mutations in a script whose `cacheSet` keys all avoid `k` leave
`k`'s cache binding alone. -/
theorem execOps_cache_lookup_preserved {k : FlowKey} :
    ∀ (ops : List Op) (st : EngineState),
      (∀ k' v, Op.cacheSet k' v ∈ ops → k' ≠ k) →
      lookupKey k (execOps st ops).cache = lookupKey k st.cache
  | [], st, _ => rfl
  | op :: rest, st, h => by
    rw [execOps_cons]
    cases op with
    | cacheSet k' v =>
      rw [execOps_cache_lookup_preserved rest _ (fun k'' v' hm => h k'' v' (List.mem_cons_of_mem _ hm))]
      exact lookupKey_setItem_ne (fun he => (h k' v (List.mem_cons_self _ _)) he.symm)
    | flowsDel k' =>
      rw [execOps_cache_lookup_preserved rest _ (fun k'' v' hm => h k'' v' (List.mem_cons_of_mem _ hm))]
      rfl

/-- Every `cacheSet` in the script names a candidate. -/
theorem transferOps_cacheSet_mem :
    ∀ (cands : List FlowKey) (flows : Table) (ops : List Op),
      transferOps flows cands = .ok ops →
      ∀ k v, Op.cacheSet k v ∈ ops → k ∈ cands := by
  intro cands
  induction cands with
  | nil =>
    intro flows ops htr k v hm
    cases htr
    cases hm
  | cons c rest ih =>
    intro flows ops htr k v hm
    simp only [transferOps] at htr
    cases hlook : lookupKey c flows with
    | none => rw [hlook] at htr; cases htr
    | some w =>
      rw [hlook] at htr
      cases htr' : transferOps (delItem flows c) rest with
      | error e => rw [htr'] at htr; cases htr
      | ok ops' =>
        rw [htr'] at htr
        cases htr
        rcases List.mem_cons.mp hm with h | h
        · cases h; exact List.mem_cons_self _ _
        · rcases List.mem_cons.mp h with h2 | h2
          · cases h2
          · exact List.mem_cons_of_mem _ (ih _ _ htr' k v h2)

/-- The deletions in the script are exactly the candidates: the second
pass mutates precisely the set identified by the first pass. -/
theorem transferOps_flowsDel_iff :
    ∀ (cands : List FlowKey) (flows : Table) (ops : List Op),
      transferOps flows cands = .ok ops →
      ∀ k, Op.flowsDel k ∈ ops ↔ k ∈ cands := by
  intro cands
  induction cands with
  | nil =>
    intro flows ops htr k
    cases htr
    simp
  | cons c rest ih =>
    intro flows ops htr k
    simp only [transferOps] at htr
    cases hlook : lookupKey c flows with
    | none => rw [hlook] at htr; cases htr
    | some w =>
      rw [hlook] at htr
      cases htr' : transferOps (delItem flows c) rest with
      | error e => rw [htr'] at htr; cases htr
      | ok ops' =>
        rw [htr'] at htr
        cases htr
        constructor
        · intro hm
          rcases List.mem_cons.mp hm with h | h
          · cases h
          · rcases List.mem_cons.mp h with h2 | h2
            · cases h2; exact List.mem_cons_self _ _
            · exact List.mem_cons_of_mem _ ((ih _ _ htr' k).mp h2)
        · intro hm
          rcases List.mem_cons.mp hm with h | h
          · subst h
            exact List.mem_cons_of_mem _ (List.mem_cons_self _ _)
          · exact List.mem_cons_of_mem _ (List.mem_cons_of_mem _ ((ih _ _ htr' k).mpr h))

/-- The cleanup script always exists when the table is well-formed and the
candidates are distinct keys of it (no `KeyError`). -/
theorem transferOps_ok :
    ∀ (cands : List FlowKey) (flows : Table),
      NodupKeys flows → cands.Nodup → (∀ k ∈ cands, k ∈ keysOf flows) →
      ∃ ops, transferOps flows cands = .ok ops := by
  intro cands
  induction cands with
  | nil => exact fun flows _ _ _ => ⟨[], rfl⟩
  | cons c rest ih =>
    intro flows hnd hcnd hsub
    have hc : c ∈ keysOf flows := hsub c (List.mem_cons_self _ _)
    cases hlook : lookupKey c flows with
    | none =>
      rw [← lookupKey_isSome_iff, hlook] at hc
      cases hc
    | some w =>
      rcases List.nodup_cons.mp hcnd with ⟨hcni, hcnd'⟩
      have hsub' : ∀ k ∈ rest, k ∈ keysOf (delItem flows c) := by
        intro k hk
        have hne : k ≠ c := fun he => hcni (he ▸ hk)
        rw [← lookupKey_isSome_iff, lookupKey_delItem_ne hne, lookupKey_isSome_iff]
        exact hsub k (List.mem_cons_of_mem _ hk)
      rcases ih (delItem flows c) (nodupKeys_delItem hnd) hcnd' hsub' with ⟨ops', hops'⟩
      exact ⟨Op.cacheSet c w :: Op.flowsDel c :: ops',
        by simp only [transferOps, hlook, hops', Except.map]⟩

/-- Full behaviour of the second pass on the engine state: candidates move
to the cache (with their live value), everything else is untouched, and
well-formedness is preserved. -/
theorem transferOps_spec :
    ∀ (cands : List FlowKey) (st : EngineState) (ops : List Op),
      NodupKeys st.flows → cands.Nodup →
      (∀ k ∈ cands, k ∈ keysOf st.flows) →
      transferOps st.flows cands = .ok ops →
      (∀ k, k ∈ cands → lookupKey k (execOps st ops).flows = none) ∧
      (∀ k, k ∉ cands → lookupKey k (execOps st ops).flows = lookupKey k st.flows) ∧
      (∀ k, k ∈ cands → lookupKey k (execOps st ops).cache = lookupKey k st.flows) ∧
      (∀ k, k ∉ cands → lookupKey k (execOps st ops).cache = lookupKey k st.cache) ∧
      NodupKeys (execOps st ops).flows ∧
      (NodupKeys st.cache → NodupKeys (execOps st ops).cache) := by
  intro cands
  induction cands with
  | nil =>
    intro st ops hndf _ _ htr
    cases htr
    exact ⟨fun k hk => absurd hk (List.not_mem_nil k),
      fun k _ => rfl, fun k hk => absurd hk (List.not_mem_nil k),
      fun k _ => rfl, hndf, fun h => h⟩
  | cons c rest ih =>
    intro st ops hndf hcnd hsub htr
    have hc : c ∈ keysOf st.flows := hsub c (List.mem_cons_self _ _)
    rcases List.nodup_cons.mp hcnd with ⟨hcni, hcnd'⟩
    simp only [transferOps] at htr
    cases hlook : lookupKey c st.flows with
    | none =>
      rw [← lookupKey_isSome_iff, hlook] at hc
      cases hc
    | some w =>
      rw [hlook] at htr
      cases htr' : transferOps (delItem st.flows c) rest with
      | error e => rw [htr'] at htr; cases htr
      | ok ops' =>
        rw [htr'] at htr
        cases htr
        set st2 : EngineState := ⟨delItem st.flows c, setItem st.cache c w⟩ with hst2
        have hexec : execOps st (Op.cacheSet c w :: Op.flowsDel c :: ops') = execOps st2 ops' := rfl
        have hndf2 : NodupKeys st2.flows := nodupKeys_delItem hndf
        have hsub2 : ∀ k ∈ rest, k ∈ keysOf st2.flows := by
          intro k hk
          have hne : k ≠ c := fun he => hcni (he ▸ hk)
          rw [← lookupKey_isSome_iff]
          show (lookupKey k (delItem st.flows c)).isSome
          rw [lookupKey_delItem_ne hne, lookupKey_isSome_iff]
          exact hsub k (List.mem_cons_of_mem _ hk)
        have htr2 : transferOps st2.flows rest = .ok ops' := htr'
        rcases ih st2 ops' hndf2 hcnd' hsub2 htr2 with ⟨h1, h2, h3, h4, h5, h6⟩
        rw [hexec]
        refine ⟨?_, ?_, ?_, ?_, h5, ?_⟩
        · intro k hk
          rcases List.mem_cons.mp hk with h | h
          · subst h
            rw [h2 k hcni]
            show lookupKey k (delItem st.flows k) = none
            exact lookupKey_delItem_self hndf
          · exact h1 k h
        · intro k hk
          have hkne : k ≠ c := fun he => hk (he ▸ List.mem_cons_self _ _)
          have hknr : k ∉ rest := fun hm => hk (List.mem_cons_of_mem _ hm)
          rw [h2 k hknr]
          show lookupKey k (delItem st.flows c) = lookupKey k st.flows
          exact lookupKey_delItem_ne hkne
        · intro k hk
          rcases List.mem_cons.mp hk with h | h
          · subst h
            rw [h4 k hcni, hlook]
            show lookupKey k (setItem st.cache k w) = some w
            exact lookupKey_setItem_self
          · have hkne : k ≠ c := fun he => hcni (he ▸ h)
            rw [h3 k h]
            show lookupKey k (delItem st.flows c) = lookupKey k st.flows
            exact lookupKey_delItem_ne hkne
        · intro k hk
          have hkne : k ≠ c := fun he => hk (he ▸ List.mem_cons_self _ _)
          have hknr : k ∉ rest := fun hm => hk (List.mem_cons_of_mem _ hm)
          rw [h4 k hknr]
          show lookupKey k (setItem st.cache c w) = lookupKey k st.cache
          exact lookupKey_setItem_ne hkne
        · intro hndc
          exact h6 (nodupKeys_setItem hndc)

/-- At every interruption point inside the second pass (after any prefix
of the script), a key that has disappeared from the live table is already
in the cold cache with its live value: no partial transfer. -/
theorem transferOps_no_partial :
    ∀ (cands : List FlowKey) (st : EngineState) (ops : List Op),
      NodupKeys st.flows → cands.Nodup →
      (∀ k ∈ cands, k ∈ keysOf st.flows) →
      transferOps st.flows cands = .ok ops →
      ∀ p s, ops = p ++ s → ∀ k, k ∈ keysOf st.flows →
        k ∉ keysOf (execOps st p).flows →
        lookupKey k (execOps st p).cache = lookupKey k st.flows := by
  intro cands
  induction cands with
  | nil =>
    intro st ops hndf _ _ htr p s hps k hkm hknot
    cases htr
    have hp : p = [] := (List.append_eq_nil.mp hps.symm).1
    subst hp
    exact absurd hkm hknot
  | cons c rest ih =>
    intro st ops hndf hcnd hsub htr p s hps k hkm hknot
    have hc : c ∈ keysOf st.flows := hsub c (List.mem_cons_self _ _)
    rcases List.nodup_cons.mp hcnd with ⟨hcni, hcnd'⟩
    simp only [transferOps] at htr
    cases hlook : lookupKey c st.flows with
    | none =>
      rw [← lookupKey_isSome_iff, hlook] at hc
      cases hc
    | some w =>
      rw [hlook] at htr
      cases htr' : transferOps (delItem st.flows c) rest with
      | error e => rw [htr'] at htr; cases htr
      | ok ops' =>
        rw [htr'] at htr
        cases htr
        set st2 : EngineState := ⟨delItem st.flows c, setItem st.cache c w⟩ with hst2
        cases p with
        | nil => exact absurd hkm hknot
        | cons a p1 =>
          rw [List.cons_append] at hps
          injection hps with ha hps1
          subst ha
          cases p1 with
          | nil =>
            exact absurd hkm hknot
          | cons b p2 =>
            rw [List.cons_append] at hps1
            injection hps1 with hb hps2
            subst hb
            have hps2 : p2 ++ s = ops' := hps2.symm
            have hexecp : execOps st (Op.cacheSet c w :: Op.flowsDel c :: p2) = execOps st2 p2 := rfl
            rw [hexecp] at hknot ⊢
            by_cases hk : k = c
            · subst hk
              have hnoset : ∀ k' v, Op.cacheSet k' v ∈ p2 → k' ≠ k := by
                intro k' v hm he
                subst he
                have : Op.cacheSet k' v ∈ ops' := hps2 ▸ List.mem_append_left s hm
                exact hcni (transferOps_cacheSet_mem rest _ ops' htr' k' v this)
              rw [execOps_cache_lookup_preserved p2 st2 hnoset]
              show lookupKey k (setItem st.cache k w) = lookupKey k st.flows
              rw [lookupKey_setItem_self, hlook]
            · have hkm2 : k ∈ keysOf st2.flows := by
                rw [← lookupKey_isSome_iff]
                show (lookupKey k (delItem st.flows c)).isSome
                rw [lookupKey_delItem_ne hk, lookupKey_isSome_iff]
                exact hkm
              have hndf2 : NodupKeys st2.flows := nodupKeys_delItem hndf
              have hsub2 : ∀ k' ∈ rest, k' ∈ keysOf st2.flows := by
                intro k' hk'
                have hne : k' ≠ c := fun he => hcni (he ▸ hk')
                rw [← lookupKey_isSome_iff]
                show (lookupKey k' (delItem st.flows c)).isSome
                rw [lookupKey_delItem_ne hne, lookupKey_isSome_iff]
                exact hsub k' (List.mem_cons_of_mem _ hk')
              have := ih st2 ops' hndf2 hcnd' hsub2 htr' p2 s hps2.symm k hkm2 hknot
              rw [this]
              show lookupKey k (delItem st.flows c) = lookupKey k st.flows
              exact lookupKey_delItem_ne hk

/-! ### First-pass candidate lemmas -/

theorem oldFlows_subset_keys {now offset agg : ℚ} {flows : Table} :
    ∀ k ∈ oldFlows now offset agg flows, k ∈ keysOf flows := by
  intro k hk
  rcases List.mem_map.mp hk with ⟨kv, hkv, hfst⟩
  exact hfst ▸ List.mem_map.mpr ⟨kv, List.mem_of_mem_filter hkv, rfl⟩

theorem oldFlows_nodup {now offset agg : ℚ} {flows : Table}
    (hnd : NodupKeys flows) : (oldFlows now offset agg flows).Nodup :=
  hnd.sublist ((List.filter_sublist flows).map Prod.fst)

theorem mem_oldFlows_iff {now offset agg : ℚ} {flows : Table} {k : FlowKey}
    {v : List Accum} (hnd : NodupKeys flows) (hm : (k, v) ∈ flows) :
    k ∈ oldFlows now offset agg flows ↔ idleTime now offset v > agg := by
  constructor
  · intro h
    rcases List.mem_map.mp h with ⟨⟨k1, v1⟩, hkv, hfst⟩
    rcases List.mem_filter.mp hkv with ⟨hkvm, hp⟩
    cases hfst
    have hv : v1 = v := value_unique hnd hkvm hm
    subst hv
    exact of_decide_eq_true hp
  · intro h
    exact List.mem_map.mpr ⟨(k, v), List.mem_filter.mpr ⟨hm, decide_eq_true h⟩, rfl⟩

/-! ### Whole-sweep behaviour -/

theorem sweepFlows_spec (now offset agg : ℚ) (st : EngineState)
    (hndf : NodupKeys st.flows) :
    ∃ st', sweepFlows now offset agg st = .ok st' ∧
      (∀ k, k ∈ oldFlows now offset agg st.flows →
        lookupKey k st'.flows = none ∧ lookupKey k st'.cache = lookupKey k st.flows) ∧
      (∀ k, k ∉ oldFlows now offset agg st.flows →
        lookupKey k st'.flows = lookupKey k st.flows ∧
        lookupKey k st'.cache = lookupKey k st.cache) ∧
      NodupKeys st'.flows ∧ (NodupKeys st.cache → NodupKeys st'.cache) := by
  rcases transferOps_ok _ st.flows hndf (oldFlows_nodup hndf) oldFlows_subset_keys
    with ⟨ops, hops⟩
  rcases transferOps_spec _ st ops hndf (oldFlows_nodup hndf) oldFlows_subset_keys hops
    with ⟨h1, h2, h3, h4, h5, h6⟩
  refine ⟨execOps st ops, ?_, fun k hk => ⟨h1 k hk, h3 k hk⟩,
    fun k hk => ⟨h2 k hk, h4 k hk⟩, h5, h6⟩
  simp only [sweepFlows, hops, Except.map]

/-! ### The copy-everything loop of the drain -/

theorem foldl_setItem_isSome_mono {k : FlowKey} :
    ∀ (l : Table) (c : Table), (lookupKey k c).isSome →
      (lookupKey k (l.foldl (fun c2 kv => setItem c2 kv.1 kv.2) c)).isSome := by
  intro l
  induction l with
  | nil => exact fun c h => h
  | cons kv rest ih =>
    intro c h
    refine ih _ ?_
    by_cases he : k = kv.1
    · subst he; rw [lookupKey_setItem_self]; rfl
    · rw [lookupKey_setItem_ne he]; exact h

theorem foldl_setItem_mem {k : FlowKey} :
    ∀ (l : Table) (c : Table), k ∈ keysOf l →
      (lookupKey k (l.foldl (fun c2 kv => setItem c2 kv.1 kv.2) c)).isSome := by
  intro l
  induction l with
  | nil => intro c h; cases h
  | cons kv rest ih =>
    intro c h
    rcases List.mem_cons.mp h with he | he
    · subst he
      exact foldl_setItem_isSome_mono rest _ (by rw [lookupKey_setItem_self]; rfl)
    · exact ih _ he

theorem foldl_setItem_not_mem {k : FlowKey} :
    ∀ (l : Table) (c : Table), k ∉ keysOf l →
      lookupKey k (l.foldl (fun c2 kv => setItem c2 kv.1 kv.2) c) = lookupKey k c := by
  intro l
  induction l with
  | nil => exact fun c _ => rfl
  | cons kv rest ih =>
    intro c h
    have hne : k ≠ kv.1 := fun he => h (he ▸ List.mem_cons_self _ _)
    have hnr : k ∉ keysOf rest := fun hm => h (List.mem_cons_of_mem _ hm)
    rw [List.foldl_cons, ih _ hnr, lookupKey_setItem_ne hne]

theorem foldl_setItem_nodup :
    ∀ (l : Table) (c : Table), NodupKeys c →
      NodupKeys (l.foldl (fun c2 kv => setItem c2 kv.1 kv.2) c) := by
  intro l
  induction l with
  | nil => exact fun c h => h
  | cons kv rest ih => exact fun c h => ih _ (nodupKeys_setItem h)

/-! ### The whole drain -/

theorem drain_spec (now offset : ℚ) (st : EngineState)
    (hndf : NodupKeys st.flows) :
    ∃ st', drain now offset st = .ok st' ∧
      (∀ k, k ∈ keysOf st.flows → (lookupKey k st'.cache).isSome) ∧
      (∀ k, (lookupKey k st.cache).isSome → (lookupKey k st'.cache).isSome) ∧
      (∀ k, lookupKey k st'.flows =
        if k ∈ oldFlows now offset 0 st.flows then none else lookupKey k st.flows) ∧
      NodupKeys st'.flows ∧ (NodupKeys st.cache → NodupKeys st'.cache) := by
  rcases sweepFlows_spec now offset 0 st hndf with ⟨stS, hS, hin, hout, hnf, hnc⟩
  refine ⟨transferRemaining stS, ?_, ?_, ?_, ?_, hnf, fun h => foldl_setItem_nodup _ _ (hnc h)⟩
  · simp only [drain, hS, Except.map]
  · intro k hk
    by_cases hc : k ∈ oldFlows now offset 0 st.flows
    · refine foldl_setItem_isSome_mono _ _ ?_
      rw [(hin k hc).2, lookupKey_isSome_iff]
      exact hk
    · refine foldl_setItem_mem _ _ ?_
      rw [← lookupKey_isSome_iff, (hout k hc).1, lookupKey_isSome_iff]
      exact hk
  · intro k hk
    by_cases hc : k ∈ oldFlows now offset 0 st.flows
    · refine foldl_setItem_isSome_mono _ _ ?_
      rw [(hin k hc).2, lookupKey_isSome_iff]
      exact oldFlows_subset_keys k hc
    · refine foldl_setItem_isSome_mono _ _ ?_
      rw [(hout k hc).2]
      exact hk
  · intro k
    by_cases hc : k ∈ oldFlows now offset 0 st.flows
    · rw [if_pos hc]
      exact (hin k hc).1
    · rw [if_neg hc]
      exact (hout k hc).1

/-! ### Presence across the collection window -/

theorem runEvents_presence :
    ∀ (events : List Event) (offset : ℚ) (st st' : EngineState),
      NodupKeys st.flows → NodupKeys st.cache →
      runEvents offset events st = .ok st' →
      NodupKeys st'.flows ∧ NodupKeys st'.cache ∧
      (∀ k, ((lookupKey k st.flows).isSome ∨ (lookupKey k st.cache).isSome ∨
             k ∈ classifiedKeys events) →
        ((lookupKey k st'.flows).isSome ∨ (lookupKey k st'.cache).isSome)) := by
  intro events
  induction events with
  | nil =>
    intro offset st st' h1 h2 hrun
    cases hrun
    refine ⟨h1, h2, fun k hk => ?_⟩
    rcases hk with h | h | h
    · exact Or.inl h
    · exact Or.inr h
    · cases h
  | cons e es ih =>
    intro offset st st' h1 h2 hrun
    cases e with
    | classify k0 v0 =>
      simp only [runEvents, stepEvent, Except.bind] at hrun
      have h1' : NodupKeys (setItem st.flows k0 v0) := nodupKeys_setItem h1
      rcases ih offset ⟨setItem st.flows k0 v0, st.cache⟩ st' h1' h2 hrun with ⟨g1, g2, g3⟩
      refine ⟨g1, g2, fun k hk => g3 k ?_⟩
      rcases hk with h | h | h
      · left
        by_cases he : k = k0
        · subst he
          show (lookupKey k (setItem st.flows k v0)).isSome
          rw [lookupKey_setItem_self]; rfl
        · show (lookupKey k (setItem st.flows k0 v0)).isSome
          rw [lookupKey_setItem_ne he]; exact h
      · right; left; exact h
      · have : k = k0 ∨ k ∈ classifiedKeys es := by
          simpa [classifiedKeys] using h
        rcases this with he | he
        · subst he
          left
          show (lookupKey k (setItem st.flows k v0)).isSome
          rw [lookupKey_setItem_self]; rfl
        · right; right; exact he
    | sweep nw ag =>
      rcases sweepFlows_spec nw offset ag st h1 with ⟨stS, hS, hin, hout, hnf, hnc⟩
      simp only [runEvents, stepEvent, hS, Except.bind] at hrun
      rcases ih offset stS st' hnf (hnc h2) hrun with ⟨g1, g2, g3⟩
      refine ⟨g1, g2, fun k hk => g3 k ?_⟩
      rcases hk with h | h | h
      · by_cases hc : k ∈ oldFlows nw offset ag st.flows
        · right; left
          rw [(hin k hc).2]
          exact h
        · left
          rw [(hout k hc).1]
          exact h
      · by_cases hc : k ∈ oldFlows nw offset ag st.flows
        · right; left
          rw [(hin k hc).2, lookupKey_isSome_iff]
          exact oldFlows_subset_keys k hc
        · right; left
          rw [(hout k hc).2]
          exact h
      · right; right
        simpa [classifiedKeys] using h

/-! ### Report-compiler lemmas -/

theorem setAdd_nodup {s : List String} {x : String} (h : s.Nodup) :
    (setAdd s x).Nodup := by
  unfold setAdd
  by_cases hm : x ∈ s
  · rw [if_pos hm]; exact h
  · rw [if_neg hm]
    exact List.nodup_append.mpr ⟨h, List.nodup_singleton x,
      fun a ha hb => hm (by rwa [List.mem_singleton.mp hb] at ha)⟩

theorem mem_setAdd {s : List String} {x r : String} :
    r ∈ setAdd s x ↔ r = x ∨ r ∈ s := by
  unfold setAdd
  by_cases hm : x ∈ s
  · rw [if_pos hm]
    constructor
    · exact fun h => Or.inr h
    · rintro (rfl | h)
      · exact hm
      · exact h
  · rw [if_neg hm]
    simp [List.mem_append, or_comm]

theorem buildFlowSet_spec :
    ∀ (cache : Table) (offset : ℚ) (acc rows : List String),
      buildFlowSet offset cache acc = .ok rows → acc.Nodup →
      rows.Nodup ∧
      (∀ r, r ∈ rows ↔ r ∈ acc ∨ ∃ kv, kv ∈ cache ∧ compileRow offset kv = .ok r) := by
  intro cache
  induction cache with
  | nil =>
    intro offset acc rows hok hnd
    cases hok
    exact ⟨hnd, fun r => by simp⟩
  | cons kv rest ih =>
    intro offset acc rows hok hnd
    simp only [buildFlowSet] at hok
    cases hrow : compileRow offset kv with
    | error e => rw [hrow] at hok; cases hok
    | ok r0 =>
      rw [hrow] at hok
      rcases ih offset (setAdd acc r0) rows hok (setAdd_nodup hnd) with ⟨g1, g2⟩
      refine ⟨g1, fun r => ?_⟩
      rw [g2 r]
      constructor
      · rintro (h | ⟨kv', hkv', hr'⟩)
        · rcases mem_setAdd.mp h with rfl | h2
          · exact Or.inr ⟨kv, List.mem_cons_self _ _, hrow⟩
          · exact Or.inl h2
        · exact Or.inr ⟨kv', List.mem_cons_of_mem _ hkv', hr'⟩
      · rintro (h | ⟨kv', hkv', hr'⟩)
        · exact Or.inl (mem_setAdd.mpr (Or.inr h))
        · rcases List.mem_cons.mp hkv' with rfl | h2
          · rw [hrow] at hr'
            cases hr'
            exact Or.inl (mem_setAdd.mpr (Or.inl rfl))
          · exact Or.inr ⟨kv', h2, hr'⟩

/-! ### Totals of the report merge loop -/

theorem mergeAccums_foldl_counts :
    ∀ (l : List Accum) (m : Merged),
      (l.foldl mergeStep m).packets = m.packets + (l.map Accum.packets).sum ∧
      (l.foldl mergeStep m).bytes = m.bytes + (l.map Accum.bytes).sum := by
  intro l
  induction l with
  | nil => intro m; simp
  | cons a rest ih =>
    intro m
    rcases ih (mergeStep m a) with ⟨h1, h2⟩
    constructor
    · rw [List.foldl_cons, h1]
      show m.packets + a.packets + (rest.map Accum.packets).sum = _
      simp [Nat.add_assoc]
    · rw [List.foldl_cons, h2]
      show m.bytes + a.bytes + (rest.map Accum.bytes).sum = _
      simp [Nat.add_assoc]

/-! Sanity checks on small inputs (eviction uses a strict comparator,
the second pass really moves rows). -/

example : recentStamp [⟨1, 10, 5, 7⟩, ⟨0, 0, 0, 0⟩, ⟨2, 20, 3, 9⟩] = 9 := by decide

example :
    oldFlows 10 0 2 [(⟨1,2,3,4,5,6⟩, [⟨1, 10, 5, 7000000000⟩])] = [⟨1,2,3,4,5,6⟩] := by
  with_unfolding_all decide

example :
    oldFlows 9 0 2 [(⟨1,2,3,4,5,6⟩, [⟨1, 10, 5, 7000000000⟩])] = [] := by
  with_unfolding_all decide

example :
    sweepFlows 10 0 2 ⟨[(⟨1,2,3,4,5,6⟩, [⟨1, 10, 5, 7000000000⟩])], []⟩ =
      .ok ⟨[], [(⟨1,2,3,4,5,6⟩, [⟨1, 10, 5, 7000000000⟩])]⟩ := by
  with_unfolding_all rfl

/-! ## The claims -/

/-- **C1**: every FlowKey ever present in the live table during a run
(initially present or inserted by the classifier) appears in the cold
cache exactly once after the final drain and cache-transfer steps: no
observed flow is lost, none is duplicated. -/
theorem observed_flows_exactly_once_in_cold_cache
    (offset now : ℚ) (events : List Event) (st0 stF : EngineState)
    (hf : NodupKeys st0.flows) (hc : NodupKeys st0.cache)
    (hrun : runThenDrain offset events now st0 = .ok stF) :
    ∀ k ∈ observedKeys st0 events, keyCount stF.cache k = 1 := by
  intro k hk
  unfold runThenDrain at hrun
  cases hre : runEvents offset events st0 with
  | error e => rw [hre] at hrun; cases hrun
  | ok st1 =>
    rw [hre] at hrun
    have hdr : drain now offset st1 = .ok stF := hrun
    rcases runEvents_presence events offset st0 st1 hf hc hre with ⟨g1, g2, g3⟩
    rcases drain_spec now offset st1 g1 with ⟨st', hd, d1, d2, _, _, d6⟩
    rw [hdr] at hd
    cases hd
    have hobs : (lookupKey k st0.flows).isSome ∨ (lookupKey k st0.cache).isSome ∨
        k ∈ classifiedKeys events := by
      rcases List.mem_append.mp hk with h | h
      · exact Or.inl (lookupKey_isSome_iff.mpr h)
      · exact Or.inr (Or.inr h)
    have hcache : (lookupKey k stF.cache).isSome := by
      rcases g3 k hobs with h | h
      · exact d1 k (lookupKey_isSome_iff.mp h)
      · exact d2 k h
    exact keyCount_eq_one (d6 g2) (lookupKey_isSome_iff.mp hcache)

/-- **C2** (code bug): the report loop's merge seeds `start`/`end` from
the first shard via the `-1` sentinel and then folds `min`/`max` over all
shards, so a zeroed shard with no packets drags `earliest_start_ns` down
to `0`; the spec-modelled merger (minimum over shards with at least one
packet) gives `100` on the same array.  The maxima agree on this input,
the minima do not. -/
theorem merge_spurious_zero_start_code_bug :
    (mergeAccums [⟨0, 0, 0, 0⟩, ⟨1, 100, 100, 200⟩]).start = 0 ∧
    specEarliestStartNs [⟨0, 0, 0, 0⟩, ⟨1, 100, 100, 200⟩] = some 100 ∧
    (mergeAccums [⟨0, 0, 0, 0⟩, ⟨1, 100, 100, 200⟩]).endNs = 200 ∧
    specLatestEndNs [⟨0, 0, 0, 0⟩, ⟨1, 100, 100, 200⟩] = some 200 := by
  decide

/-- **C3** (counterexample): a zero-threshold drain does *not* leave the
live table empty.  A flow whose idle time is exactly `0` survives the
strict comparator of the sweep, and the subsequent transfer loop copies
it into the cache without deleting it from the live table. -/
theorem drain_zero_threshold_cex :
    drain 0 0 ⟨[(⟨1, 2, 3, 4, 5, 6⟩, [⟨1, 10, 0, 0⟩])], []⟩ =
      .ok ⟨[(⟨1, 2, 3, 4, 5, 6⟩, [⟨1, 10, 0, 0⟩])],
           [(⟨1, 2, 3, 4, 5, 6⟩, [⟨1, 10, 0, 0⟩])]⟩ ∧
    ([(⟨1, 2, 3, 4, 5, 6⟩, [⟨1, 10, 0, 0⟩])] : Table) ≠ [] := by
  constructor
  · with_unfolding_all rfl
  · decide

/-- **C3** (amended): the zero-threshold sweep of the drain evicts exactly
the live flows with strictly positive idle time; the subsequent transfer
loop then copies every remaining flow into the cold cache without removing
it, so after the drain every live key is in the cold cache, and the live
table retains exactly the flows whose idle time is not strictly positive. -/
theorem drain_zero_threshold_amended (now offset : ℚ) (st : EngineState)
    (hndf : NodupKeys st.flows) :
    ∃ st', drain now offset st = .ok st' ∧
      (∀ k, k ∈ keysOf st.flows → k ∈ keysOf st'.cache) ∧
      (∀ k v, (k, v) ∈ st.flows →
        (k ∈ keysOf st'.flows ↔ ¬ idleTime now offset v > 0)) := by
  rcases drain_spec now offset st hndf with ⟨st', hd, hkc, _, hflows, _, _⟩
  refine ⟨st', hd, fun k hk => lookupKey_isSome_iff.mp (hkc k hk), ?_⟩
  intro k v hm
  rw [← lookupKey_isSome_iff, hflows k]
  by_cases hc : k ∈ oldFlows now offset 0 st.flows
  · rw [if_pos hc]
    constructor
    · intro h
      exact absurd h (by simp)
    · intro h
      exact absurd ((mem_oldFlows_iff hndf hm).mp hc) h
  · rw [if_neg hc]
    constructor
    · intro _ hgt
      exact hc ((mem_oldFlows_iff hndf hm).mpr hgt)
    · intro _
      exact lookupKey_isSome_iff.mpr (List.mem_map.mpr ⟨(k, v), hm, rfl⟩)

/-- **C4**: on every exit path of `main` — normal completion, external
interruption (`KeyboardInterrupt`), and an error raised during report
compilation — `remove_xdp` is invoked before the outcome surfaces. -/
theorem remove_xdp_on_every_exit_path
    (loopSweeps : Nat) (interrupted reportError : Bool) :
    MainAction.removeXdp ∈ (mainTrace loopSweeps interrupted reportError).1 := by
  cases interrupted <;> cases reportError <;>
    simp [mainTrace, List.mem_append, List.mem_replicate]

/-- **C5**: a live flow is an eviction candidate of `_sweep_flows` if and
only if `now - (recent_stamp/1e9 + offset)` strictly exceeds `agg_time`;
in particular a flow exactly at the threshold is not evicted. -/
theorem sweep_strict_idle_threshold (now offset agg : ℚ) (flows : Table)
    (k : FlowKey) (v : List Accum) (hnd : NodupKeys flows) (hm : (k, v) ∈ flows) :
    (k ∈ oldFlows now offset agg flows ↔
      now - ((recentStamp v : ℚ) / 1e9 + offset) > agg) ∧
    (now - ((recentStamp v : ℚ) / 1e9 + offset) = agg →
      k ∉ oldFlows now offset agg flows) := by
  have hiff := @mem_oldFlows_iff now offset agg flows k v hnd hm
  refine ⟨hiff, fun heq hmem => ?_⟩
  have hgt : idleTime now offset v > agg := hiff.mp hmem
  have heq' : idleTime now offset v = agg := heq
  rw [heq'] at hgt
  exact lt_irrefl agg hgt

/-- **C6**: the sweep determines its complete candidate set from the
pre-sweep table (the script deletes exactly the first-pass candidates),
transfers each candidate into the cold cache under the same FlowKey with
its raw accumulator array before removing it from the live table (after
any prefix of the script, a key gone from the live table already has its
live value in the cache), and by the end of the pass every candidate is in
the cache and out of the live table. -/
theorem sweep_two_pass_exact_transfer (now offset agg : ℚ) (st : EngineState)
    (ops : List Op) (hndf : NodupKeys st.flows)
    (htr : transferOps st.flows (oldFlows now offset agg st.flows) = .ok ops) :
    sweepFlows now offset agg st = .ok (execOps st ops) ∧
    (∀ k, Op.flowsDel k ∈ ops ↔ k ∈ oldFlows now offset agg st.flows) ∧
    (∀ p s, ops = p ++ s → ∀ k, k ∈ keysOf st.flows →
      k ∉ keysOf (execOps st p).flows →
      lookupKey k (execOps st p).cache = lookupKey k st.flows) ∧
    (∀ k, k ∈ oldFlows now offset agg st.flows →
      lookupKey k (execOps st ops).cache = lookupKey k st.flows ∧
      lookupKey k (execOps st ops).flows = none) := by
  refine ⟨by simp only [sweepFlows, htr, Except.map],
    transferOps_flowsDel_iff _ _ _ htr,
    transferOps_no_partial _ st ops hndf (oldFlows_nodup hndf) oldFlows_subset_keys htr,
    fun k hk => ?_⟩
  rcases transferOps_spec _ st ops hndf (oldFlows_nodup hndf) oldFlows_subset_keys htr
    with ⟨h1, _, h3, _, _, _⟩
  exact ⟨h3 k hk, h1 k hk⟩

/-- **C7**: the report compiler deduplicates rows by exact rendered text
(the `flow_set` container), sorts the surviving rows ascending by the
number parsed from each row's leading comma-separated field, and prepends
the fixed header line; a row appears in the output exactly when some
cold-cache entry renders to it, so identically rendered flows collapse. -/
theorem report_dedup_sort_header (offset : ℚ) (cache : Table)
    (out : List String) (hok : compileReport offset cache = .ok out) :
    ∃ rows,
      out = ("START, END, SRC IP, DST IP, SRC PORT, DST PORT, ETHER TYPE, "
        ++ "PROTO, #PACKETS, #BYTES\n") :: rows ∧
      rows.Nodup ∧
      List.Sorted (fun a b => parseRat (leadingField a) ≤ parseRat (leadingField b)) rows ∧
      (∀ r, r ∈ rows ↔ ∃ kv, kv ∈ cache ∧ compileRow offset kv = .ok r) := by
  unfold compileReport at hok
  cases hbf : buildFlowSet offset cache [] with
  | error e => rw [hbf] at hok; cases hok
  | ok s =>
    rw [hbf] at hok
    simp only [Except.map] at hok
    cases hok
    rcases buildFlowSet_spec cache offset [] s hbf List.nodup_nil with ⟨hnd, hiff⟩
    refine ⟨sortRows s, rfl, ?_, ?_, ?_⟩
    · exact (List.perm_insertionSort _ s).nodup_iff.mpr hnd
    · exact List.sorted_insertionSort (fun a b => rowKey a ≤ rowKey b) s
    · intro r
      rw [sortRows, List.Perm.mem_iff (List.perm_insertionSort _ s), hiff r]
      simp

/-- **C8**: a cold-cache entry whose ethertype is neither of the two
values the decoder recognizes renders with empty source/destination
address fields while every other field is still produced, and processing
of the remaining entries continues exactly as it would have — the decode
gap is isolated to that one row. -/
theorem report_unrecognized_ethertype_isolated (offset : ℚ)
    (k : FlowKey) (v : List Accum)
    (h8 : k.l2_proto ≠ 0x0800) (h81 : k.l2_proto ≠ 0x8100) :
    compileRow offset (k, v) = .ok (renderRow
      (((mergeAccums v).start : ℚ) / 1e9 + offset)
      (((mergeAccums v).endNs : ℚ) / 1e9 + offset) "" ""
      (ntohs k.src_port) (ntohs k.dst_port) k.l2_proto k.l4_proto
      (mergeAccums v).packets (mergeAccums v).bytes) ∧
    (∀ (rest : Table) (acc : List String),
      buildFlowSet offset ((k, v) :: rest) acc =
        buildFlowSet offset rest (setAdd acc (renderRow
          (((mergeAccums v).start : ℚ) / 1e9 + offset)
          (((mergeAccums v).endNs : ℚ) / 1e9 + offset) "" ""
          (ntohs k.src_port) (ntohs k.dst_port) k.l2_proto k.l4_proto
          (mergeAccums v).packets (mergeAccums v).bytes))) := by
  have hd : decodeAddrs k = .ok ("", "") := by
    unfold decodeAddrs
    rw [if_neg h8, if_neg h81]
  have hrow : compileRow offset (k, v) = .ok (renderRow
      (((mergeAccums v).start : ℚ) / 1e9 + offset)
      (((mergeAccums v).endNs : ℚ) / 1e9 + offset) "" ""
      (ntohs k.src_port) (ntohs k.dst_port) k.l2_proto k.l4_proto
      (mergeAccums v).packets (mergeAccums v).bytes) := by
    unfold compileRow
    rw [hd]
  refine ⟨hrow, fun rest acc => ?_⟩
  simp only [buildFlowSet, hrow]

/-- **C9**: the `n_packets`/`n_bytes` accumulators of the report loop are
the exact sums of the `packets`/`bytes` fields over all per-CPU shards of
the entry, whatever the distribution over shards (all-zero shards
included, since they add zero). -/
theorem report_totals_sum_all_shards (accms : List Accum) :
    (mergeAccums accms).packets = (accms.map Accum.packets).sum ∧
    (mergeAccums accms).bytes = (accms.map Accum.bytes).sum := by
  rcases mergeAccums_foldl_counts accms ⟨0, 0, -1, -1⟩ with ⟨h1, h2⟩
  exact ⟨by rw [mergeAccums, h1]; simp, by rw [mergeAccums, h2]; simp⟩

/-- **C10**: with a `KeyboardInterrupt`, `remove_xdp` runs twice — once in
the interrupt handler and once in the report `finally` — and exactly once
on the uninterrupted path, whether or not report compilation raises. -/
theorem remove_xdp_invocation_count (loopSweeps : Nat) (reportError : Bool) :
    (mainTrace loopSweeps true reportError).1.count MainAction.removeXdp = 2 ∧
    (mainTrace loopSweeps false reportError).1.count MainAction.removeXdp = 1 := by
  cases reportError <;>
    simp [mainTrace, List.count_append, List.count_replicate, List.count_cons]

/-! ## Concrete witnesses -/

/-- Witness for C1: a run that classifies two flows, sweeps one out during
the window, and drains the other; both end up in the cold cache once. -/
theorem observed_flows_exactly_once_in_cold_cache_witness :
    NodupKeys (⟨[], []⟩ : EngineState).flows ∧
    NodupKeys (⟨[], []⟩ : EngineState).cache ∧
    runThenDrain 0
      [Event.classify ⟨1, 2, 3, 4, 5, 6⟩ [⟨1, 1, 0, 1000000000⟩],
       Event.classify ⟨2, 2, 3, 4, 5, 6⟩ [⟨2, 2, 0, 9000000000⟩],
       Event.sweep 9 2] 10 ⟨[], []⟩ =
      .ok ⟨[], [(⟨1, 2, 3, 4, 5, 6⟩, [⟨1, 1, 0, 1000000000⟩]),
                (⟨2, 2, 3, 4, 5, 6⟩, [⟨2, 2, 0, 9000000000⟩])]⟩ ∧
    (⟨1, 2, 3, 4, 5, 6⟩ : FlowKey) ∈ observedKeys ⟨[], []⟩
      [Event.classify ⟨1, 2, 3, 4, 5, 6⟩ [⟨1, 1, 0, 1000000000⟩],
       Event.classify ⟨2, 2, 3, 4, 5, 6⟩ [⟨2, 2, 0, 9000000000⟩],
       Event.sweep 9 2] ∧
    keyCount [(⟨1, 2, 3, 4, 5, 6⟩, [⟨1, 1, 0, 1000000000⟩]),
              (⟨2, 2, 3, 4, 5, 6⟩, [⟨2, 2, 0, 9000000000⟩])] ⟨1, 2, 3, 4, 5, 6⟩ = 1 :=
  ⟨by decide, by decide, by with_unfolding_all rfl, by decide,
    observed_flows_exactly_once_in_cold_cache 0 10
      [Event.classify ⟨1, 2, 3, 4, 5, 6⟩ [⟨1, 1, 0, 1000000000⟩],
       Event.classify ⟨2, 2, 3, 4, 5, 6⟩ [⟨2, 2, 0, 9000000000⟩],
       Event.sweep 9 2] ⟨[], []⟩
      ⟨[], [(⟨1, 2, 3, 4, 5, 6⟩, [⟨1, 1, 0, 1000000000⟩]),
            (⟨2, 2, 3, 4, 5, 6⟩, [⟨2, 2, 0, 9000000000⟩])]⟩
      (by decide) (by decide) (by with_unfolding_all rfl)
      ⟨1, 2, 3, 4, 5, 6⟩ (by decide)⟩

/-- Witness for the amended C3: one live flow at idle time exactly `0`
stays in the live table and is still copied into the cold cache. -/
theorem drain_zero_threshold_amended_witness :
    NodupKeys (⟨[(⟨1, 2, 3, 4, 5, 6⟩, [⟨1, 10, 0, 0⟩])], []⟩ : EngineState).flows ∧
    (∃ st', drain 0 0 ⟨[(⟨1, 2, 3, 4, 5, 6⟩, [⟨1, 10, 0, 0⟩])], []⟩ = .ok st' ∧
      (∀ k, k ∈ keysOf (⟨[(⟨1, 2, 3, 4, 5, 6⟩, [⟨1, 10, 0, 0⟩])], []⟩ : EngineState).flows →
        k ∈ keysOf st'.cache) ∧
      (∀ k v, (k, v) ∈ (⟨[(⟨1, 2, 3, 4, 5, 6⟩, [⟨1, 10, 0, 0⟩])], []⟩ : EngineState).flows →
        (k ∈ keysOf st'.flows ↔ ¬ idleTime 0 0 v > 0))) :=
  ⟨by decide, drain_zero_threshold_amended 0 0 _ (by decide)⟩

/-- Witness for C5: a flow whose last activity converts to exactly `now`
minus the threshold (idle time `0` at threshold `0`) is not evicted. -/
theorem sweep_strict_idle_threshold_witness :
    NodupKeys [(⟨1, 2, 3, 4, 5, 6⟩, [⟨1, 10, 5, 7000000000⟩])] ∧
    ((⟨1, 2, 3, 4, 5, 6⟩, [⟨1, 10, 5, 7000000000⟩]) ∈
      ([(⟨1, 2, 3, 4, 5, 6⟩, [⟨1, 10, 5, 7000000000⟩])] : Table)) ∧
    ((7 : ℚ) - ((recentStamp [⟨1, 10, 5, 7000000000⟩] : ℚ) / 1e9 + 0) = 0 →
      (⟨1, 2, 3, 4, 5, 6⟩ : FlowKey) ∉
        oldFlows 7 0 0 [(⟨1, 2, 3, 4, 5, 6⟩, [⟨1, 10, 5, 7000000000⟩])]) :=
  ⟨by decide, by decide,
    (sweep_strict_idle_threshold 7 0 0 [(⟨1, 2, 3, 4, 5, 6⟩, [⟨1, 10, 5, 7000000000⟩])]
      ⟨1, 2, 3, 4, 5, 6⟩ [⟨1, 10, 5, 7000000000⟩] (by decide) (by decide)).2⟩

/-- Witness for C6 at a two-flow table where exactly one flow is idle. -/
theorem sweep_two_pass_exact_transfer_witness :
    transferOps (⟨[(⟨1, 2, 3, 4, 5, 6⟩, [⟨1, 1, 0, 1000000000⟩]),
                   (⟨2, 2, 3, 4, 5, 6⟩, [⟨2, 2, 0, 9000000000⟩])], []⟩ : EngineState).flows
      (oldFlows 9 0 2 (⟨[(⟨1, 2, 3, 4, 5, 6⟩, [⟨1, 1, 0, 1000000000⟩]),
                   (⟨2, 2, 3, 4, 5, 6⟩, [⟨2, 2, 0, 9000000000⟩])], []⟩ : EngineState).flows) =
      .ok [Op.cacheSet ⟨1, 2, 3, 4, 5, 6⟩ [⟨1, 1, 0, 1000000000⟩],
           Op.flowsDel ⟨1, 2, 3, 4, 5, 6⟩] ∧
    (sweepFlows 9 0 2 ⟨[(⟨1, 2, 3, 4, 5, 6⟩, [⟨1, 1, 0, 1000000000⟩]),
                        (⟨2, 2, 3, 4, 5, 6⟩, [⟨2, 2, 0, 9000000000⟩])], []⟩ =
      .ok (execOps ⟨[(⟨1, 2, 3, 4, 5, 6⟩, [⟨1, 1, 0, 1000000000⟩]),
                     (⟨2, 2, 3, 4, 5, 6⟩, [⟨2, 2, 0, 9000000000⟩])], []⟩
        [Op.cacheSet ⟨1, 2, 3, 4, 5, 6⟩ [⟨1, 1, 0, 1000000000⟩],
         Op.flowsDel ⟨1, 2, 3, 4, 5, 6⟩]) ∧
      (∀ k, Op.flowsDel k ∈ [Op.cacheSet ⟨1, 2, 3, 4, 5, 6⟩ [⟨1, 1, 0, 1000000000⟩],
           Op.flowsDel ⟨1, 2, 3, 4, 5, 6⟩] ↔
        k ∈ oldFlows 9 0 2 (⟨[(⟨1, 2, 3, 4, 5, 6⟩, [⟨1, 1, 0, 1000000000⟩]),
                   (⟨2, 2, 3, 4, 5, 6⟩, [⟨2, 2, 0, 9000000000⟩])], []⟩ : EngineState).flows) ∧
      (∀ p s, [Op.cacheSet ⟨1, 2, 3, 4, 5, 6⟩ [⟨1, 1, 0, 1000000000⟩],
           Op.flowsDel ⟨1, 2, 3, 4, 5, 6⟩] = p ++ s →
        ∀ k, k ∈ keysOf (⟨[(⟨1, 2, 3, 4, 5, 6⟩, [⟨1, 1, 0, 1000000000⟩]),
                   (⟨2, 2, 3, 4, 5, 6⟩, [⟨2, 2, 0, 9000000000⟩])], []⟩ : EngineState).flows →
          k ∉ keysOf (execOps ⟨[(⟨1, 2, 3, 4, 5, 6⟩, [⟨1, 1, 0, 1000000000⟩]),
                   (⟨2, 2, 3, 4, 5, 6⟩, [⟨2, 2, 0, 9000000000⟩])], []⟩ p).flows →
          lookupKey k (execOps ⟨[(⟨1, 2, 3, 4, 5, 6⟩, [⟨1, 1, 0, 1000000000⟩]),
                   (⟨2, 2, 3, 4, 5, 6⟩, [⟨2, 2, 0, 9000000000⟩])], []⟩ p).cache =
            lookupKey k (⟨[(⟨1, 2, 3, 4, 5, 6⟩, [⟨1, 1, 0, 1000000000⟩]),
                   (⟨2, 2, 3, 4, 5, 6⟩, [⟨2, 2, 0, 9000000000⟩])], []⟩ : EngineState).flows) ∧
      (∀ k, k ∈ oldFlows 9 0 2 (⟨[(⟨1, 2, 3, 4, 5, 6⟩, [⟨1, 1, 0, 1000000000⟩]),
                   (⟨2, 2, 3, 4, 5, 6⟩, [⟨2, 2, 0, 9000000000⟩])], []⟩ : EngineState).flows →
        lookupKey k (execOps ⟨[(⟨1, 2, 3, 4, 5, 6⟩, [⟨1, 1, 0, 1000000000⟩]),
                   (⟨2, 2, 3, 4, 5, 6⟩, [⟨2, 2, 0, 9000000000⟩])], []⟩
          [Op.cacheSet ⟨1, 2, 3, 4, 5, 6⟩ [⟨1, 1, 0, 1000000000⟩],
           Op.flowsDel ⟨1, 2, 3, 4, 5, 6⟩]).cache =
          lookupKey k (⟨[(⟨1, 2, 3, 4, 5, 6⟩, [⟨1, 1, 0, 1000000000⟩]),
                   (⟨2, 2, 3, 4, 5, 6⟩, [⟨2, 2, 0, 9000000000⟩])], []⟩ : EngineState).flows ∧
        lookupKey k (execOps ⟨[(⟨1, 2, 3, 4, 5, 6⟩, [⟨1, 1, 0, 1000000000⟩]),
                   (⟨2, 2, 3, 4, 5, 6⟩, [⟨2, 2, 0, 9000000000⟩])], []⟩
          [Op.cacheSet ⟨1, 2, 3, 4, 5, 6⟩ [⟨1, 1, 0, 1000000000⟩],
           Op.flowsDel ⟨1, 2, 3, 4, 5, 6⟩]).flows = none)) :=
  ⟨by with_unfolding_all rfl,
    sweep_two_pass_exact_transfer 9 0 2
      ⟨[(⟨1, 2, 3, 4, 5, 6⟩, [⟨1, 1, 0, 1000000000⟩]),
        (⟨2, 2, 3, 4, 5, 6⟩, [⟨2, 2, 0, 9000000000⟩])], []⟩
      [Op.cacheSet ⟨1, 2, 3, 4, 5, 6⟩ [⟨1, 1, 0, 1000000000⟩],
       Op.flowsDel ⟨1, 2, 3, 4, 5, 6⟩]
      (by decide) (by with_unfolding_all rfl)⟩

/-- Witness for C7 at the spec's example start times 12.5, 3.1 and 7.0:
the output is the header followed by the rows in ascending start order,
with the unrecognized-ethertype row rendered with empty addresses. -/
theorem report_dedup_sort_header_witness :
    compileReport 0
      [(⟨0x0800, 6, 0x0100007f, 0x0200007f, 0x5000, 0x3500⟩,
          [⟨3, 300, 12500000000, 13000000000⟩]),
       (⟨0x0800, 17, 0x0100007f, 0x0200007f, 0x5000, 0x3500⟩,
          [⟨2, 200, 3100000000, 3200000000⟩]),
       (⟨0x1234, 6, 5, 6, 0x0100, 0x0200⟩, [⟨1, 100, 7000000000, 8000000000⟩])] =
      .ok ["START, END, SRC IP, DST IP, SRC PORT, DST PORT, ETHER TYPE, PROTO, #PACKETS, #BYTES\n",
        "31/10,16/5,127.0.0.1,127.0.0.2,80,53,0x800,17,2,200\n",
        "7,8,,,1,2,0x1234,6,1,100\n",
        "25/2,13,127.0.0.1,127.0.0.2,80,53,0x800,6,3,300\n"] ∧
    (∃ rows,
      ["START, END, SRC IP, DST IP, SRC PORT, DST PORT, ETHER TYPE, PROTO, #PACKETS, #BYTES\n",
        "31/10,16/5,127.0.0.1,127.0.0.2,80,53,0x800,17,2,200\n",
        "7,8,,,1,2,0x1234,6,1,100\n",
        "25/2,13,127.0.0.1,127.0.0.2,80,53,0x800,6,3,300\n"] =
        ("START, END, SRC IP, DST IP, SRC PORT, DST PORT, ETHER TYPE, "
          ++ "PROTO, #PACKETS, #BYTES\n") :: rows ∧
      rows.Nodup ∧
      List.Sorted (fun a b => parseRat (leadingField a) ≤ parseRat (leadingField b)) rows ∧
      (∀ r, r ∈ rows ↔ ∃ kv,
        kv ∈ ([(⟨0x0800, 6, 0x0100007f, 0x0200007f, 0x5000, 0x3500⟩,
            [⟨3, 300, 12500000000, 13000000000⟩]),
          (⟨0x0800, 17, 0x0100007f, 0x0200007f, 0x5000, 0x3500⟩,
            [⟨2, 200, 3100000000, 3200000000⟩]),
          (⟨0x1234, 6, 5, 6, 0x0100, 0x0200⟩,
            [⟨1, 100, 7000000000, 8000000000⟩])] : Table) ∧
        compileRow 0 kv = .ok r)) :=
  ⟨by with_unfolding_all rfl,
    report_dedup_sort_header 0
      [(⟨0x0800, 6, 0x0100007f, 0x0200007f, 0x5000, 0x3500⟩,
          [⟨3, 300, 12500000000, 13000000000⟩]),
       (⟨0x0800, 17, 0x0100007f, 0x0200007f, 0x5000, 0x3500⟩,
          [⟨2, 200, 3100000000, 3200000000⟩]),
       (⟨0x1234, 6, 5, 6, 0x0100, 0x0200⟩, [⟨1, 100, 7000000000, 8000000000⟩])]
      ["START, END, SRC IP, DST IP, SRC PORT, DST PORT, ETHER TYPE, PROTO, #PACKETS, #BYTES\n",
        "31/10,16/5,127.0.0.1,127.0.0.2,80,53,0x800,17,2,200\n",
        "7,8,,,1,2,0x1234,6,1,100\n",
        "25/2,13,127.0.0.1,127.0.0.2,80,53,0x800,6,3,300\n"]
      (by with_unfolding_all rfl)⟩

/-- Witness for C8 at ethertype `0x1234`, which is neither recognized
value: the row succeeds with empty addresses. -/
theorem report_unrecognized_ethertype_isolated_witness :
    (⟨0x1234, 17, 5, 6, 0x0100, 0x0200⟩ : FlowKey).l2_proto ≠ 0x0800 ∧
    (⟨0x1234, 17, 5, 6, 0x0100, 0x0200⟩ : FlowKey).l2_proto ≠ 0x8100 ∧
    (compileRow 0 (⟨0x1234, 17, 5, 6, 0x0100, 0x0200⟩,
        [⟨2, 200, 3100000000, 3200000000⟩]) = .ok (renderRow
      (((mergeAccums [⟨2, 200, 3100000000, 3200000000⟩]).start : ℚ) / 1e9 + 0)
      (((mergeAccums [⟨2, 200, 3100000000, 3200000000⟩]).endNs : ℚ) / 1e9 + 0) "" ""
      (ntohs (⟨0x1234, 17, 5, 6, 0x0100, 0x0200⟩ : FlowKey).src_port)
      (ntohs (⟨0x1234, 17, 5, 6, 0x0100, 0x0200⟩ : FlowKey).dst_port)
      (⟨0x1234, 17, 5, 6, 0x0100, 0x0200⟩ : FlowKey).l2_proto
      (⟨0x1234, 17, 5, 6, 0x0100, 0x0200⟩ : FlowKey).l4_proto
      (mergeAccums [⟨2, 200, 3100000000, 3200000000⟩]).packets
      (mergeAccums [⟨2, 200, 3100000000, 3200000000⟩]).bytes) ∧
    (∀ (rest : Table) (acc : List String),
      buildFlowSet 0 ((⟨0x1234, 17, 5, 6, 0x0100, 0x0200⟩,
          [⟨2, 200, 3100000000, 3200000000⟩]) :: rest) acc =
        buildFlowSet 0 rest (setAdd acc (renderRow
          (((mergeAccums [⟨2, 200, 3100000000, 3200000000⟩]).start : ℚ) / 1e9 + 0)
          (((mergeAccums [⟨2, 200, 3100000000, 3200000000⟩]).endNs : ℚ) / 1e9 + 0) "" ""
          (ntohs (⟨0x1234, 17, 5, 6, 0x0100, 0x0200⟩ : FlowKey).src_port)
          (ntohs (⟨0x1234, 17, 5, 6, 0x0100, 0x0200⟩ : FlowKey).dst_port)
          (⟨0x1234, 17, 5, 6, 0x0100, 0x0200⟩ : FlowKey).l2_proto
          (⟨0x1234, 17, 5, 6, 0x0100, 0x0200⟩ : FlowKey).l4_proto
          (mergeAccums [⟨2, 200, 3100000000, 3200000000⟩]).packets
          (mergeAccums [⟨2, 200, 3100000000, 3200000000⟩]).bytes)))) :=
  ⟨by decide, by decide,
    report_unrecognized_ethertype_isolated 0 ⟨0x1234, 17, 5, 6, 0x0100, 0x0200⟩
      [⟨2, 200, 3100000000, 3200000000⟩] (by decide) (by decide)⟩

end XdpCollect
